import Mathlib

/-!
Verification of the stress-ng workload stressor (src/stress-workload.c).

We shallowly embed the quantum-scheduling core: the per-quantum offset
generation under four distributions, the offset comparator and sort, the
fixed 20-bucket offset histogram (init, account, report), the busy-work
kernel dispatch of stress_workload_waste_time, and the setup/validation
path of stress_workload.  Machine doubles are modelled as rationals;
uint32 arithmetic is modelled on Nat with explicit reduction mod 2 ^ 32
where the C code can wrap.
-/

/-- NUM_BUCKETS in stress-workload.c. -/
def NUM_BUCKETS : ℕ := 20

/-- The modulus of uint32 arithmetic. -/
def U32 : ℕ := 2 ^ 32

/-- Modelled from the spec: the PRNG draw stress_mwc32modn(n) (core-mwc.c is
not among the sources here).  The spec states every draw is uniform over
[0, n) and that a zero-width range yields the constant 0; we model a single
draw as an arbitrary raw 32-bit value reduced mod n, with n = 0 giving 0.
The raw value is supplied by an abstract stream, so quantifying over streams
quantifies over all possible draw sequences. -/
def stress_mwc32modn (n raw : ℕ) : ℕ := if n = 0 then 0 else raw % n

/-- The four workload distributions (STRESS_WORKLOAD_DIST_RANDOM1 .. CLUSTER). -/
inductive DistKind where
  | random1
  | random2
  | random3
  | cluster
deriving DecidableEq

/-- The offset-generation switch of stress_workload_exercise (lines 333-357).
The stream s supplies the successive raw PRNG values, one per
stress_mwc32modn call, consumed in program order.  Intermediate sums of
uint32 draws are reduced mod 2 ^ 32 exactly where the C expressions are
evaluated in uint32 arithmetic.  Callers guarantee quanta_us <= slice_us
(stress_workload validates this first), so Nat subtraction agrees with the
uint32 subtraction workload_slice_us - workload_quanta_us. -/
def stress_workload_gen_offsets (dist : DistKind) (slice_us quanta_us n : ℕ)
    (s : ℕ → ℕ) : List ℕ :=
  match dist with
  | .random1 =>
      (List.range n).map fun i =>
        stress_mwc32modn (slice_us - quanta_us) (s i)
  | .random2 =>
      (List.range n).map fun i =>
        ((stress_mwc32modn (slice_us - quanta_us) (s (2 * i)) +
          stress_mwc32modn (slice_us - quanta_us) (s (2 * i + 1))) % U32) / 2
  | .random3 =>
      (List.range n).map fun i =>
        (((stress_mwc32modn (slice_us - quanta_us) (s (3 * i)) +
           stress_mwc32modn (slice_us - quanta_us) (s (3 * i + 1))) % U32 +
          stress_mwc32modn (slice_us - quanta_us) (s (3 * i + 2))) % U32) / 3
  | .cluster =>
      let offset := stress_mwc32modn (slice_us / 2) (s 0)
      (List.range n).map fun i =>
        if i < (n * 2) / 3 then
          (stress_mwc32modn quanta_us (s (i + 1)) + offset) % U32
        else
          stress_mwc32modn (slice_us - quanta_us) (s (i + 1))

/-- stress_workload_cmp (lines 296-310): three-way comparison on when_us. -/
def stress_workload_cmp (w1 w2 : ℕ) : ℤ :=
  if w1 < w2 then -1 else if w2 < w1 then 1 else 0

/-- The boolean order induced by stress_workload_cmp, as qsort consumes it:
an element may precede another whenever the comparator is nonpositive. -/
def stress_workload_le (w1 w2 : ℕ) : Bool :=
  decide (stress_workload_cmp w1 w2 ≤ 0)

/-- The qsort call of stress_workload_exercise (line 359): a sort of the
when_us values consistent with stress_workload_cmp. -/
def stress_workload_qsort (l : List ℕ) : List ℕ :=
  l.mergeSort stress_workload_le

/-- stress_workload_bucket_t: 20 bucket counters, an overflow counter and a
bucket width (a double, modelled as a rational). -/
structure stress_workload_bucket_t where
  width : ℚ
  bucket : List ℕ
  overflow : ℕ
deriving DecidableEq

/-- stress_workload_bucket_init (lines 232-240): zero all counters and set
width to the given basis divided by NUM_BUCKETS. -/
def stress_workload_bucket_init (width : ℚ) : stress_workload_bucket_t :=
  { width := width / (NUM_BUCKETS : ℚ)
    bucket := List.replicate NUM_BUCKETS 0
    overflow := 0 }

/-- The C cast (ssize_t)d of a double d truncates toward zero. -/
def ctrunc (q : ℚ) : ℤ := if 0 ≤ q then ⌊q⌋ else ⌈q⌉

/-- stress_workload_bucket_account (lines 242-253): i = (ssize_t)(value /
width); negative i is clamped to 0; i below NUM_BUCKETS increments
bucket[i], anything else increments overflow. -/
def stress_workload_bucket_account (b : stress_workload_bucket_t)
    (value : ℚ) : stress_workload_bucket_t :=
  let i : ℤ := ctrunc (value / b.width)
  let j : ℤ := if i < 0 then 0 else i
  if j < (NUM_BUCKETS : ℤ) then
    { b with bucket := b.bucket.set j.toNat (b.bucket.getD j.toNat 0 + 1) }
  else
    { b with overflow := b.overflow + 1 }

/-- The sample total as stress_workload_bucket_report computes it
(lines 268-270): overflow plus the sum of the bucket counters. -/
def stress_workload_bucket_total (b : stress_workload_bucket_t) : ℕ :=
  b.overflow + b.bucket.sum

/-- One printed row of the histogram report: inclusive range, raw count, and
the two operands of the percentage division 100 * count / total exactly as
the code forms them (the division itself is a double division). -/
structure ReportRow where
  lo : ℚ
  hi : ℚ
  count : ℕ
  percentNum : ℚ
  percentDen : ℚ
deriving DecidableEq

/-- stress_workload_bucket_report (lines 255-294): the 20 bucket rows
followed by the overflow row.  Every row performs the percentage division
100.0 * count / total; the code has no branch on total, so the divisor is
total unconditionally. -/
def stress_workload_bucket_report (b : stress_workload_bucket_t) :
    List ReportRow :=
  let total := stress_workload_bucket_total b
  ((List.range NUM_BUCKETS).map fun i =>
    { lo := (i : ℚ) * b.width
      hi := ((i : ℚ) + 1) * b.width - 1
      count := b.bucket.getD i 0
      percentNum := 100 * (b.bucket.getD i 0 : ℚ)
      percentDen := (total : ℚ) }) ++
  [{ lo := (NUM_BUCKETS : ℚ) * b.width
     hi := (NUM_BUCKETS : ℚ) * b.width
     count := b.overflow
     percentNum := 100 * (b.overflow : ℚ)
     percentDen := (total : ℚ) }]

/-- The max_quanta computation of stress_workload (lines 407-409):
slice / quanta, clamped to a minimum of 1. -/
def stress_workload_max_quanta (slice_us quanta_us : ℕ) : ℕ :=
  let mq := slice_us / quanta_us
  if mq < 1 then 1 else mq

/-- One observable step of a busy-work kernel loop: a transcendental-math
call stress_workload_math(t, t_end) with its two operands, or one increment
of the volatile counter val. -/
inductive WorkloadAction where
  | math (t tEnd : ℚ)
  | inc
deriving DecidableEq

/-- One clock-polling kernel loop of stress_workload_waste_time: while the
next stress_time_now() reading (the k-th value of the abstract clock stream)
is below tEnd, perform one body action and continue.  Fuel bounds the number
of iterations; the result carries the trace of actions and the index of the
clock reading that terminated the loop. -/
def stress_workload_kernel_loop (tEnd : ℚ) (clock : ℕ → ℚ)
    (body : ℚ → WorkloadAction) : ℕ → ℕ → List WorkloadAction × ℕ
  | 0, k => ([], k)
  | fuel + 1, k =>
      if clock k < tEnd then
        let r := stress_workload_kernel_loop tEnd clock body fuel (k + 1)
        (body (clock k) :: r.1, r.2)
      else ([], k)

/-- The case 4 branch of the top-level switch in stress_workload_waste_time
(lines 189-195), embedded as written in the source: the transcendental-math
loop, then — because case 4 has no break — fallthrough into the case 5
counter-increment loop, which re-reads the clock on entry.  The clock stream
starts at reading index 0 with the given fuel. -/
def stress_workload_waste_time_case4 (tEnd : ℚ) (clock : ℕ → ℚ)
    (fuel : ℕ) : List WorkloadAction :=
  let r1 := stress_workload_kernel_loop tEnd clock
    (fun t => WorkloadAction.math t tEnd) fuel 0
  let r2 := stress_workload_kernel_loop tEnd clock
    (fun _ => WorkloadAction.inc) fuel r1.2
  r1.1 ++ r2.1

/-- The terminal states of the stress_workload setup path. -/
inductive SetupResult where
  | configFailure
  | noResource
  | running (maxQuanta : ℕ)
deriving DecidableEq

/-- The outcome of the stress_workload prologue: its result together with
the resources still held when it returns (the calloc workload array and the
mmap scratch buffer). -/
structure SetupOutcome where
  result : SetupResult
  workloadHeld : Bool
  bufferHeld : Bool
deriving DecidableEq

/-- The validation and allocation prologue of stress_workload
(lines 400-424): the quanta/slice configuration check runs first and
returns EXIT_FAILURE before either allocation is attempted; a calloc
failure returns EXIT_NO_RESOURCE holding nothing; an mmap failure frees
the workload array and returns EXIT_NO_RESOURCE; otherwise both resources
are held and the slice loop runs with max_quanta items. -/
def stress_workload_setup (slice_us quanta_us : ℕ)
    (callocOk mmapOk : Bool) : SetupOutcome :=
  if slice_us < quanta_us then
    { result := SetupResult.configFailure, workloadHeld := false, bufferHeld := false }
  else if !callocOk then
    { result := SetupResult.noResource, workloadHeld := false, bufferHeld := false }
  else if !mmapOk then
    { result := SetupResult.noResource, workloadHeld := false, bufferHeld := false }
  else
    { result := SetupResult.running (stress_workload_max_quanta slice_us quanta_us)
      workloadHeld := true, bufferHeld := true }

/-- The per-slice state the dispatch loop of stress_workload_exercise
mutates: the offset histogram and the bogo operation counter. -/
structure ExerciseState where
  bucket : stress_workload_bucket_t
  bogo_ops : ℕ
deriving DecidableEq

/-- One iteration of the dispatch loop of stress_workload_exercise
(lines 364-375): account one arrival sample into the histogram and signal
one bogo operation.  Sleeping and the busy-work kernel touch none of the
modelled state; the accounted value of the k-th quantum is the
clock-derived quantity STRESS_DBL_MICROSECOND * (now - t_begin), supplied
by the abstract stream sample.  The sorted offset _w itself only chooses
the sleep target. -/
def stress_workload_exercise_step (sample : ℕ → ℚ)
    (p : ExerciseState × ℕ) (_w : ℕ) : ExerciseState × ℕ :=
  ({ bucket := stress_workload_bucket_account p.1.bucket (sample p.2)
     bogo_ops := p.1.bogo_ops + 1 }, p.2 + 1)

/-- stress_workload_exercise (lines 312-381): generate the per-quantum
offsets, sort them, then run the dispatch loop over the sorted quanta. -/
def stress_workload_exercise (st : ExerciseState)
    (slice_us quanta_us n : ℕ) (dist : DistKind) (s : ℕ → ℕ)
    (sample : ℕ → ℚ) : ExerciseState :=
  let offsets := stress_workload_gen_offsets dist slice_us quanta_us n s
  let sorted := stress_workload_qsort offsets
  (sorted.foldl (stress_workload_exercise_step sample) (st, 0)).1

/-- The histogram cell the claim words of C4 select: i = floor(value /
width), clamped to 0 when negative; i at or above NUM_BUCKETS selects the
overflow counter (none), otherwise bucket i.  This definition follows the
claim text, to be compared with stress_workload_bucket_account. -/
def spec_account_cell (width value : ℚ) : Option ℕ :=
  let i : ℤ := ⌊value / width⌋
  let j : ℤ := if i < 0 then 0 else i
  if j < (NUM_BUCKETS : ℤ) then some j.toNat else none

/-- Apply an increment to the cell selected by spec_account_cell. -/
def bucket_apply_cell (b : stress_workload_bucket_t) :
    Option ℕ → stress_workload_bucket_t
  | some k => { b with bucket := b.bucket.set k (b.bucket.getD k 0 + 1) }
  | none => { b with overflow := b.overflow + 1 }

/-- The C6 claim text, formalized as stated: some offset0 below slice/2
exists such that an offset of the Cluster sample lies in
[offset0, offset0 + quanta_us) exactly when its index is below
floor(2n/3), and every later offset is below slice_us - quanta_us. -/
def spec_cluster_exact_burst (slice_us quanta_us n : ℕ) (s : ℕ → ℕ) : Prop :=
  ∃ off0 : ℕ, off0 < slice_us / 2 ∧
    (∀ i : ℕ, i < n →
      ((off0 ≤ (stress_workload_gen_offsets DistKind.cluster slice_us quanta_us n s).getD i 0 ∧
        (stress_workload_gen_offsets DistKind.cluster slice_us quanta_us n s).getD i 0
          < off0 + quanta_us) ↔ i < (n * 2) / 3)) ∧
    (∀ i : ℕ, (n * 2) / 3 ≤ i → i < n →
      (stress_workload_gen_offsets DistKind.cluster slice_us quanta_us n s).getD i 0
        < slice_us - quanta_us)

/-- Incrementing one in-range cell of a counter list raises its sum by one. -/
theorem list_sum_set_succ (l : List ℕ) (i : ℕ) (h : i < l.length) :
    (l.set i (l.getD i 0 + 1)).sum = l.sum + 1 := by
  induction l generalizing i with
  | nil => simp at h
  | cons a t ih =>
    cases i with
    | zero =>
      simp only [List.set, List.getD_cons_zero, List.sum_cons]
      omega
    | succ j =>
      simp only [List.set, List.getD_cons_succ, List.sum_cons]
      rw [ih j (by simpa using h)]
      omega

/-- Accounting a sample never changes the number of bucket cells. -/
theorem stress_workload_bucket_account_length (b : stress_workload_bucket_t)
    (v : ℚ) :
    (stress_workload_bucket_account b v).bucket.length = b.bucket.length := by
  simp only [stress_workload_bucket_account]
  split <;> split <;> simp

/-- Each account call raises the report total by exactly one: exactly one of
the 20 bucket counters or the overflow counter is incremented. -/
theorem stress_workload_bucket_account_total (b : stress_workload_bucket_t)
    (v : ℚ) (hlen : b.bucket.length = NUM_BUCKETS) :
    stress_workload_bucket_total (stress_workload_bucket_account b v) =
      stress_workload_bucket_total b + 1 := by
  unfold stress_workload_bucket_account stress_workload_bucket_total
  by_cases h : (if ctrunc (v / b.width) < 0 then (0:ℤ) else ctrunc (v / b.width)) < (NUM_BUCKETS : ℤ)
  · simp only [if_pos h]
    have hj0 : (0:ℤ) ≤ if ctrunc (v / b.width) < 0 then (0:ℤ) else ctrunc (v / b.width) := by
      split <;> omega
    have hlt : (if ctrunc (v / b.width) < 0 then (0:ℤ) else ctrunc (v / b.width)).toNat < b.bucket.length := by
      rw [hlen]
      omega
    rw [list_sum_set_succ _ _ hlt]
    omega
  · simp only [if_neg h]
    omega

/-- Folding account over a sample list adds the list length to the total. -/
theorem bucket_total_foldl (vs : List ℚ) (b : stress_workload_bucket_t)
    (hlen : b.bucket.length = NUM_BUCKETS) :
    stress_workload_bucket_total (vs.foldl stress_workload_bucket_account b) =
      stress_workload_bucket_total b + vs.length := by
  induction vs generalizing b with
  | nil => simp
  | cons v t ih =>
    simp only [List.foldl_cons, List.length_cons]
    rw [ih _ (by rw [stress_workload_bucket_account_length]; exact hlen),
      stress_workload_bucket_account_total _ _ hlen]
    omega

/-- C4: stress_workload_bucket_account increments exactly the cell the claim
describes: with i = floor(value / width), a negative i is clamped to 0 and
bucket 0 is incremented, i at least 20 increments overflow, and otherwise
bucket i is incremented; in particular value in [k width, (k+1) width) with
k below 20 selects bucket k, and value at or above 20 width selects
overflow.  The C cast truncates toward zero rather than flooring, but a
negative quotient then truncates to a value at most 0, which the clamp sends
to bucket 0 exactly as the floor description does. -/
theorem stress_workload_bucket_account_floor_spec
    (b : stress_workload_bucket_t) (v : ℚ) (hw : 0 < b.width) :
    stress_workload_bucket_account b v =
      bucket_apply_cell b (spec_account_cell b.width v) ∧
    (∀ k : ℕ, k < NUM_BUCKETS → (k : ℚ) * b.width ≤ v → v < ((k : ℚ) + 1) * b.width →
      spec_account_cell b.width v = some k) ∧
    ((NUM_BUCKETS : ℚ) * b.width ≤ v → spec_account_cell b.width v = none) := by
  refine ⟨?_, ?_, ?_⟩
  · unfold stress_workload_bucket_account spec_account_cell bucket_apply_cell ctrunc
    by_cases hq : 0 ≤ v / b.width
    · simp only [if_pos hq]
      by_cases hj : (if (⌊v / b.width⌋ : ℤ) < 0 then (0:ℤ) else ⌊v / b.width⌋) < (NUM_BUCKETS : ℤ)
      · simp only [if_pos hj]
      · simp only [if_neg hj]
    · have hq' : v / b.width < 0 := not_le.mp hq
      have hceil : ⌈v / b.width⌉ ≤ 0 := Int.ceil_le.mpr (by exact_mod_cast hq'.le)
      have hfloor : ⌊v / b.width⌋ < 0 := not_le.mp (mt Int.floor_nonneg.mp hq)
      have hc : (if (⌈v / b.width⌉ : ℤ) < 0 then (0:ℤ) else ⌈v / b.width⌉) = 0 := by
        split <;> omega
      have hf : (if (⌊v / b.width⌋ : ℤ) < 0 then (0:ℤ) else ⌊v / b.width⌋) = 0 := by
        split <;> omega
      simp only [if_neg hq, hc, hf]
      norm_num [NUM_BUCKETS]
  · intro k hk hlo hhi
    have h1 : (k : ℚ) ≤ v / b.width := (le_div_iff₀ hw).mpr hlo
    have h2 : v / b.width < (k : ℚ) + 1 := by
      rw [div_lt_iff₀ hw]; linarith
    have hfl : ⌊v / b.width⌋ = (k : ℤ) := by
      rw [Int.floor_eq_iff]
      constructor
      · exact_mod_cast h1
      · push_cast
        exact h2
    unfold spec_account_cell
    have hk0 : ¬ ((k : ℤ) < 0) := by omega
    simp only [hfl, if_neg hk0]
    have hklt : (k : ℤ) < (NUM_BUCKETS : ℤ) := by exact_mod_cast hk
    simp [hklt]
  · intro hge
    have h1 : (NUM_BUCKETS : ℚ) ≤ v / b.width := (le_div_iff₀ hw).mpr hge
    have hfl : (NUM_BUCKETS : ℤ) ≤ ⌊v / b.width⌋ := by
      rw [Int.le_floor]
      exact_mod_cast h1
    unfold spec_account_cell
    have hnb : (0:ℤ) ≤ (NUM_BUCKETS:ℤ) := by norm_num [NUM_BUCKETS]
    have h0 : ¬ (⌊v / b.width⌋ < 0) := by omega
    simp only [if_neg h0]
    rw [if_neg (by omega)]

/-- Witness for C4: on the histogram initialized for a 100000 us slice
(bucket width 5000), accounting the value 7500 matches the floor
description and selects bucket 1. -/
theorem stress_workload_bucket_account_floor_spec_witness :
    (0:ℚ) < (stress_workload_bucket_init 100000).width ∧
    stress_workload_bucket_account (stress_workload_bucket_init 100000) 7500 =
      bucket_apply_cell (stress_workload_bucket_init 100000)
        (spec_account_cell (stress_workload_bucket_init 100000).width 7500) ∧
    spec_account_cell (stress_workload_bucket_init 100000).width 7500 = some 1 :=
  ⟨by norm_num [stress_workload_bucket_init, NUM_BUCKETS],
   (stress_workload_bucket_account_floor_spec (stress_workload_bucket_init 100000) 7500
      (by norm_num [stress_workload_bucket_init, NUM_BUCKETS])).1,
   (stress_workload_bucket_account_floor_spec (stress_workload_bucket_init 100000) 7500
      (by norm_num [stress_workload_bucket_init, NUM_BUCKETS])).2.1 1
      (by norm_num [NUM_BUCKETS])
      (by norm_num [stress_workload_bucket_init, NUM_BUCKETS])
      (by norm_num [stress_workload_bucket_init, NUM_BUCKETS])⟩

/-- C5: conservation invariant of the histogram.  Starting from an
initialized (all-zero) bucket set, any sequence of N account calls leaves
sum(counts) + overflow equal to N, because every call increments exactly
one of the 20 bucket counters or the overflow counter. -/
theorem stress_workload_bucket_conservation (w : ℚ) (vs : List ℚ) :
    stress_workload_bucket_total
        (vs.foldl stress_workload_bucket_account (stress_workload_bucket_init w)) =
      vs.length := by
  rw [bucket_total_foldl]
  · simp [stress_workload_bucket_total, stress_workload_bucket_init, List.sum_replicate]
  · simp [stress_workload_bucket_init]

/-- C2: the code does NOT short-circuit the percentage computation at zero
total.  On a freshly initialized histogram (zero samples, total = 0),
stress_workload_bucket_report emits its 21 rows unconditionally and every
row carries the percentage division operands 100 * count / total with
divisor 0 — in IEEE double arithmetic 0.0 / 0.0, a NaN percentage — because
lines 281-292 have no branch on total.  This contradicts the claimed (and
spec-required) guard, so the claim describes the intent and the code is in
error. -/
theorem stress_workload_bucket_report_zero_total_divides :
    stress_workload_bucket_total (stress_workload_bucket_init 100000) = 0 ∧
    (stress_workload_bucket_report (stress_workload_bucket_init 100000)).length
      = NUM_BUCKETS + 1 ∧
    (stress_workload_bucket_report (stress_workload_bucket_init 100000)).map
        ReportRow.percentDen = List.replicate (NUM_BUCKETS + 1) 0 := by
  refine ⟨by simp [stress_workload_bucket_total, stress_workload_bucket_init], ?_, ?_⟩
  · simp [stress_workload_bucket_report]
  · simp only [stress_workload_bucket_report, stress_workload_bucket_total,
      stress_workload_bucket_init, List.map_append, List.map_map]
    norm_num
    rw [List.replicate_succ']
    simp [Function.comp_def]

/-- The boolean order of stress_workload_cmp is exactly the natural order
on when_us. -/
theorem stress_workload_le_iff (a b : ℕ) : stress_workload_le a b = true ↔ a ≤ b := by
  simp only [stress_workload_le, stress_workload_cmp, decide_eq_true_eq]
  split_ifs with h1 h2 <;> constructor <;> intro h <;> omega

/-- C8: after the qsort call with the stress_workload_cmp comparator, the
quantum sequence is ascending by offset — every adjacent pair satisfies
offset i at most offset i+1 — and is a permutation of the input, so the
multiset of offsets is unchanged. -/
theorem stress_workload_qsort_sorted_perm (l : List ℕ) :
    List.Sorted (· ≤ ·) (stress_workload_qsort l) ∧
    (stress_workload_qsort l).Perm l := by
  constructor
  · have hs := List.sorted_mergeSort
      (fun a b c hab hbc => (stress_workload_le_iff a c).mpr
        (le_trans ((stress_workload_le_iff a b).mp hab) ((stress_workload_le_iff b c).mp hbc)))
      (fun a b => by
        rcases le_total a b with h | h
        · simp [(stress_workload_le_iff a b).mpr h]
        · simp [(stress_workload_le_iff b a).mpr h])
      l
    exact hs.imp fun h => (stress_workload_le_iff _ _).mp h
  · exact List.mergeSort_perm l _

/-- C7: when quanta_us exceeds slice_us, stress_workload reports the
configuration error and returns EXIT_FAILURE before acquiring any resource
(independently of whether calloc or mmap would succeed); when quanta_us is
at most slice_us no configuration error is raised, and with both
allocations succeeding the run proceeds with the derived max_quanta. -/
theorem stress_workload_setup_config_check (slice quanta : ℕ) (c m : Bool) :
    (slice < quanta →
      stress_workload_setup slice quanta c m =
        { result := SetupResult.configFailure, workloadHeld := false, bufferHeld := false }) ∧
    (quanta ≤ slice →
      (stress_workload_setup slice quanta c m).result ≠ SetupResult.configFailure) ∧
    (quanta ≤ slice →
      stress_workload_setup slice quanta true true =
        { result := SetupResult.running (stress_workload_max_quanta slice quanta)
          workloadHeld := true, bufferHeld := true }) := by
  refine ⟨?_, ?_, ?_⟩
  · intro h
    simp [stress_workload_setup, h]
  · intro h
    simp only [stress_workload_setup, if_neg (Nat.not_lt.mpr h)]
    split
    · simp
    · split <;> simp
  · intro h
    simp [stress_workload_setup, Nat.not_lt.mpr h]

/-- Witness for C7: slice_us = 100, quanta_us = 200 is a configuration
error holding no resources; slice_us = 100000, quanta_us = 1000 passes
validation and runs with max_quanta = 100. -/
theorem stress_workload_setup_config_check_witness :
    stress_workload_setup 100 200 true true =
      { result := SetupResult.configFailure, workloadHeld := false, bufferHeld := false } ∧
    stress_workload_setup 100000 1000 true true =
      { result := SetupResult.running 100, workloadHeld := true, bufferHeld := true } :=
  ⟨(stress_workload_setup_config_check 100 200 true true).1 (by decide),
   by
    have h := (stress_workload_setup_config_check 100000 1000 true true).2.2 (by decide)
    rw [h]
    decide⟩

/-- Every action a kernel loop emits is a body step taken at a clock
reading that was still below the deadline. -/
theorem stress_workload_kernel_loop_mem (tEnd : ℚ) (clock : ℕ → ℚ)
    (body : ℚ → WorkloadAction) (fuel : ℕ) :
    ∀ (k : ℕ), ∀ a ∈ (stress_workload_kernel_loop tEnd clock body fuel k).1,
      ∃ j : ℕ, clock j < tEnd ∧ a = body (clock j) := by
  induction fuel with
  | zero => intro k a ha; simp [stress_workload_kernel_loop] at ha
  | succ f ih =>
    intro k a ha
    rw [stress_workload_kernel_loop] at ha
    by_cases h : clock k < tEnd
    · simp only [if_pos h, List.mem_cons] at ha
      rcases ha with ha | ha
      · exact ⟨k, h, ha⟩
      · exact ih (k+1) a ha
    · simp [if_neg h] at ha

/-- With a monotone clock that reaches the deadline by reading n, and fuel
covering those readings, a kernel loop terminates at a reading at or past
the deadline. -/
theorem stress_workload_kernel_loop_exit (tEnd : ℚ) (clock : ℕ → ℚ)
    (body : ℚ → WorkloadAction)
    (mono : ∀ a b : ℕ, a ≤ b → clock a ≤ clock b) (n : ℕ) (hn : tEnd ≤ clock n)
    (fuel : ℕ) : ∀ (k : ℕ), n ≤ k + fuel →
      tEnd ≤ clock (stress_workload_kernel_loop tEnd clock body fuel k).2 := by
  induction fuel with
  | zero =>
    intro k hk
    simp only [stress_workload_kernel_loop]
    exact le_trans hn (mono n k (by omega))
  | succ f ih =>
    intro k hk
    rw [stress_workload_kernel_loop]
    by_cases h : clock k < tEnd
    · simp only [if_pos h]
      exact ih (k+1) (by omega)
    · simp only [if_neg h]
      exact not_lt.mp h

/-- A kernel loop entered with the clock already at or past the deadline
performs no body action: its first condition check fails. -/
theorem stress_workload_kernel_loop_done (tEnd : ℚ) (clock : ℕ → ℚ)
    (body : ℚ → WorkloadAction) (fuel k : ℕ) (h : tEnd ≤ clock k) :
    (stress_workload_kernel_loop tEnd clock body fuel k).1 = [] := by
  cases fuel with
  | zero => rfl
  | succ f =>
    rw [stress_workload_kernel_loop]
    rw [if_neg (not_lt.mpr h)]

/-- C3: when the top-level draw selects case 4, the invocation repeatedly
executes only the transcendental-math routine until the wall clock reaches
the deadline and then returns: although case 4 falls through into the
case 5 counter-increment loop, that loop re-reads the (monotone) clock,
which is already at or past the deadline, so it performs zero increments.
Every emitted action is a math step taken strictly before the deadline, and
no counter increment occurs.  The clock is monotone and reaches the
deadline by reading n, with fuel covering those readings. -/
theorem stress_workload_waste_time_case4_math_only (tEnd : ℚ)
    (clock : ℕ → ℚ) (n fuel : ℕ)
    (mono : ∀ a b : ℕ, a ≤ b → clock a ≤ clock b)
    (hn : tEnd ≤ clock n) (hfuel : n ≤ fuel) :
    WorkloadAction.inc ∉ stress_workload_waste_time_case4 tEnd clock fuel ∧
    ∀ a ∈ stress_workload_waste_time_case4 tEnd clock fuel,
      ∃ t : ℚ, t < tEnd ∧ a = WorkloadAction.math t tEnd := by
  have h2 : tEnd ≤ clock (stress_workload_kernel_loop tEnd clock
      (fun t => WorkloadAction.math t tEnd) fuel 0).2 :=
    stress_workload_kernel_loop_exit tEnd clock _ mono n hn fuel 0 (by omega)
  have hr2 := stress_workload_kernel_loop_done tEnd clock
    (fun _ => WorkloadAction.inc) fuel _ h2
  simp only [stress_workload_waste_time_case4]
  rw [hr2, List.append_nil]
  constructor
  · intro hmem
    obtain ⟨j, _, ha⟩ := stress_workload_kernel_loop_mem tEnd clock _ fuel 0 _ hmem
    exact WorkloadAction.noConfusion ha
  · intro a ha
    obtain ⟨j, hj, ha⟩ := stress_workload_kernel_loop_mem tEnd clock _ fuel 0 a ha
    exact ⟨clock j, hj, ha⟩

/-- Witness for C3: with the clock reading k at its k-th poll and a
deadline of 2, the case 4 invocation (fuel 2) performs no counter
increment. -/
theorem stress_workload_waste_time_case4_math_only_witness :
    WorkloadAction.inc ∉ stress_workload_waste_time_case4 2 (fun k => (k:ℚ)) 2 :=
  (stress_workload_waste_time_case4_math_only 2 (fun k => (k:ℚ)) 2 2
    (fun a b h => by
      show (a:ℚ) ≤ (b:ℚ)
      exact_mod_cast h)
    (by norm_num) (le_refl 2)).1

/-- A nonzero-range PRNG draw is strictly below its range bound. -/
theorem stress_mwc32modn_lt (n r : ℕ) (h : 0 < n) : stress_mwc32modn n r < n := by
  simp only [stress_mwc32modn, if_neg (Nat.pos_iff_ne_zero.mp h)]
  exact Nat.mod_lt _ h

/-- A zero-width range yields the constant 0. -/
theorem stress_mwc32modn_zero (r : ℕ) : stress_mwc32modn 0 r = 0 := rfl

/-- Indexing a mapped range list below its length applies the function. -/
theorem getD_map_range {α : Type} (f : ℕ → α) (n i : ℕ) (d : α) (h : i < n) :
    ((List.range n).map f).getD i d = f i := by
  rw [List.getD_eq_getElem?_getD]
  simp [List.getElem?_range, h]

/-- Counterexample for C1: the claim fails on the Cluster distribution.
With the valid configuration slice_us = 8, quanta_us = 3 (max_quanta = 2)
and the draw stream 3, 2, 2, ..., the burst offset is
stress_mwc32modn(3) + offset0 = 2 + 3 = 5, which does not lie in
[0, slice_us - quanta_us) = [0, 5) and is not 0. -/
theorem stress_workload_offsets_range_counterexample :
    ¬ (∀ o ∈ stress_workload_gen_offsets DistKind.cluster 8 3
          (stress_workload_max_quanta 8 3) (fun k => if k = 0 then 3 else 2),
        o < 8 - 3 ∨ (8 = 3 ∧ o = 0)) := by decide

/-- C1 amended: for Random1, Random2 and Random3 every generated offset
lies in [0, slice_us - quanta_us), or is the constant 0 when that range is
empty (slice_us = quanta_us); for Cluster, an offset instead satisfies
offset < slice_us/2 + quanta_us (the burst offsets) or
offset < slice_us - quanta_us (the background offsets). -/
theorem stress_workload_offsets_range_amended (dist : DistKind) (slice quanta n : ℕ) (s : ℕ → ℕ)
    (h1 : 1 ≤ quanta) (h2 : quanta ≤ slice) (h3 : slice ≤ 10000000) :
    ((stress_workload_gen_offsets dist slice quanta n s).all fun o =>
      decide ((dist = DistKind.cluster → o < slice / 2 + quanta ∨ o < slice - quanta) ∧
              (dist ≠ DistKind.cluster → o < slice - quanta ∨ (slice = quanta ∧ o = 0)))) = true := by
  rw [List.all_eq_true]
  intro o ho
  rw [decide_eq_true_iff]
  have hU : U32 = 4294967296 := rfl
  cases dist with
  | random1 =>
    refine ⟨by simp, fun _ => ?_⟩
    simp only [stress_workload_gen_offsets, List.mem_map, List.mem_range] at ho
    obtain ⟨i, hi, rfl⟩ := ho
    rcases Nat.eq_zero_or_pos (slice - quanta) with hR | hR
    · right
      exact ⟨by omega, by rw [hR, stress_mwc32modn_zero]⟩
    · left
      exact stress_mwc32modn_lt _ _ hR
  | random2 =>
    refine ⟨by simp, fun _ => ?_⟩
    simp only [stress_workload_gen_offsets, List.mem_map, List.mem_range] at ho
    obtain ⟨i, hi, rfl⟩ := ho
    rcases Nat.eq_zero_or_pos (slice - quanta) with hR | hR
    · right
      refine ⟨by omega, ?_⟩
      simp [hR, stress_mwc32modn_zero]
    · left
      have ha := stress_mwc32modn_lt (slice - quanta) (s (2 * i)) hR
      have hb := stress_mwc32modn_lt (slice - quanta) (s (2 * i + 1)) hR
      have hmod : (stress_mwc32modn (slice - quanta) (s (2 * i)) +
          stress_mwc32modn (slice - quanta) (s (2 * i + 1))) % U32 =
          stress_mwc32modn (slice - quanta) (s (2 * i)) +
          stress_mwc32modn (slice - quanta) (s (2 * i + 1)) := by
        apply Nat.mod_eq_of_lt
        omega
      rw [hmod]
      omega
  | random3 =>
    refine ⟨by simp, fun _ => ?_⟩
    simp only [stress_workload_gen_offsets, List.mem_map, List.mem_range] at ho
    obtain ⟨i, hi, rfl⟩ := ho
    rcases Nat.eq_zero_or_pos (slice - quanta) with hR | hR
    · right
      refine ⟨by omega, ?_⟩
      simp [hR, stress_mwc32modn_zero]
    · left
      have ha := stress_mwc32modn_lt (slice - quanta) (s (3 * i)) hR
      have hb := stress_mwc32modn_lt (slice - quanta) (s (3 * i + 1)) hR
      have hc := stress_mwc32modn_lt (slice - quanta) (s (3 * i + 2)) hR
      have hmod1 : (stress_mwc32modn (slice - quanta) (s (3 * i)) +
          stress_mwc32modn (slice - quanta) (s (3 * i + 1))) % U32 =
          stress_mwc32modn (slice - quanta) (s (3 * i)) +
          stress_mwc32modn (slice - quanta) (s (3 * i + 1)) := by
        apply Nat.mod_eq_of_lt
        omega
      rw [hmod1]
      have hmod2 : (stress_mwc32modn (slice - quanta) (s (3 * i)) +
          stress_mwc32modn (slice - quanta) (s (3 * i + 1)) +
          stress_mwc32modn (slice - quanta) (s (3 * i + 2))) % U32 =
          stress_mwc32modn (slice - quanta) (s (3 * i)) +
          stress_mwc32modn (slice - quanta) (s (3 * i + 1)) +
          stress_mwc32modn (slice - quanta) (s (3 * i + 2)) := by
        apply Nat.mod_eq_of_lt
        omega
      rw [hmod2]
      omega
  | cluster =>
    refine ⟨fun _ => ?_, by simp⟩
    simp only [stress_workload_gen_offsets, List.mem_map, List.mem_range] at ho
    obtain ⟨i, hi, rfl⟩ := ho
    by_cases hb : i < (n * 2) / 3
    · left
      simp only [if_pos hb]
      have hd := stress_mwc32modn_lt quanta (s (i + 1)) (by omega)
      have hoff : stress_mwc32modn (slice / 2) (s 0) ≤ slice / 2 := by
        rcases Nat.eq_zero_or_pos (slice / 2) with hz | hz
        · rw [hz, stress_mwc32modn_zero]
        · exact le_of_lt (stress_mwc32modn_lt _ _ hz)
      have : stress_mwc32modn quanta (s (i + 1)) + stress_mwc32modn (slice / 2) (s 0) < U32 := by
        have : slice / 2 ≤ slice := Nat.div_le_self _ _
        omega
      rw [Nat.mod_eq_of_lt this]
      omega
    · simp only [if_neg hb]
      rcases Nat.eq_zero_or_pos (slice - quanta) with hR | hR
      · left
        rw [hR, stress_mwc32modn_zero]
        omega
      · right
        exact stress_mwc32modn_lt _ _ hR

/-- Witness for C1 amended: the Random2 distribution at slice_us = 100000,
quanta_us = 1000, three quanta, stream 7k + 3. -/
theorem stress_workload_offsets_range_amended_witness :
    ((stress_workload_gen_offsets DistKind.random2 100000 1000 3 (fun k => 7 * k + 3)).all fun o =>
      decide ((DistKind.random2 = DistKind.cluster → o < 100000 / 2 + 1000 ∨ o < 100000 - 1000) ∧
              (DistKind.random2 ≠ DistKind.cluster → o < 100000 - 1000 ∨ (100000 = 1000 ∧ o = 0)))) = true :=
  stress_workload_offsets_range_amended DistKind.random2 100000 1000 3 (fun k => 7 * k + 3)
    (by decide) (by decide) (by decide)

/-- Any PRNG draw is at most its range bound. -/
theorem stress_mwc32modn_le (n r : ℕ) : stress_mwc32modn n r ≤ n := by
  simp only [stress_mwc32modn]
  split
  · omega
  · exact le_of_lt (Nat.mod_lt _ (by omega))

/-- Counterexample for C6: the claim as stated is false at slice_us =
30000, quanta_us = 1000, quanta_count n = 30 (so floor(2n/3) = 20) and the
all-zero draw stream.  Every generated offset is then 0, so any interval
[offset0, offset0 + quanta_us) containing offset number 0 also contains
offset number 20, and no offset0 makes the burst membership hold for
exactly the first 20 offsets: a background draw can land inside the burst
interval. -/
theorem spec_cluster_exact_burst_counterexample :
    ¬ spec_cluster_exact_burst 30000 1000 30 (fun _ => 0) := by
  rintro ⟨off0, hlt, hiff, hbg⟩
  have e0 : (stress_workload_gen_offsets DistKind.cluster 30000 1000 30 (fun _ => 0)).getD 0 0 = 0 := by
    decide
  have e20 : (stress_workload_gen_offsets DistKind.cluster 30000 1000 30 (fun _ => 0)).getD 20 0 = 0 := by
    decide
  have h0 := hiff 0 (by norm_num)
  have h20 := hiff 20 (by norm_num)
  rw [e0] at h0
  rw [e20] at h20
  exact absurd (h20.mp (h0.mpr (by norm_num))) (by norm_num)

/-- C6 amended: the recoverable offset0 is the draw
stress_mwc32modn(slice_us / 2) and lies in [0, slice_us / 2); the first
floor(2n/3) generated offsets lie in [offset0, offset0 + quanta_us), and
each remaining offset lies in [0, slice_us - quanta_us) (or is 0 when that
range is empty) — but only the first floor(2n/3) are guaranteed in the
burst interval; the remaining ones may also fall inside it. -/
theorem stress_workload_cluster_burst_amended (slice quanta n : ℕ) (s : ℕ → ℕ)
    (h1 : 1 ≤ quanta) (h2 : quanta ≤ slice) (h3 : slice ≤ 10000000)
    (h4 : 2 ≤ slice) :
    stress_mwc32modn (slice / 2) (s 0) < slice / 2 ∧
    ((List.range n).all fun i =>
      if i < (n * 2) / 3 then
        decide (stress_mwc32modn (slice / 2) (s 0) ≤
            (stress_workload_gen_offsets DistKind.cluster slice quanta n s).getD i 0 ∧
          (stress_workload_gen_offsets DistKind.cluster slice quanta n s).getD i 0 <
            stress_mwc32modn (slice / 2) (s 0) + quanta)
      else
        decide ((stress_workload_gen_offsets DistKind.cluster slice quanta n s).getD i 0 <
            slice - quanta ∨
          (slice = quanta ∧
            (stress_workload_gen_offsets DistKind.cluster slice quanta n s).getD i 0 = 0))) = true := by
  have hU : U32 = 4294967296 := rfl
  have hhalf : 0 < slice / 2 := (Nat.one_le_div_iff (by norm_num)).mpr h4
  constructor
  · exact stress_mwc32modn_lt _ _ hhalf
  · rw [List.all_eq_true]
    intro i hi
    rw [List.mem_range] at hi
    have hgd : (stress_workload_gen_offsets DistKind.cluster slice quanta n s).getD i 0 =
        if i < (n * 2) / 3 then
          (stress_mwc32modn quanta (s (i + 1)) + stress_mwc32modn (slice / 2) (s 0)) % U32
        else stress_mwc32modn (slice - quanta) (s (i + 1)) := by
      simp only [stress_workload_gen_offsets]
      rw [getD_map_range _ _ _ _ hi]
    by_cases hb : i < (n * 2) / 3
    · rw [if_pos hb, decide_eq_true_iff, hgd, if_pos hb]
      have hd := stress_mwc32modn_lt quanta (s (i + 1)) (by omega)
      have hoff := stress_mwc32modn_le (slice / 2) (s 0)
      have hs2 : slice / 2 ≤ slice := Nat.div_le_self _ _
      have hlt : stress_mwc32modn quanta (s (i + 1)) + stress_mwc32modn (slice / 2) (s 0) < U32 := by
        omega
      rw [Nat.mod_eq_of_lt hlt]
      omega
    · rw [if_neg hb, decide_eq_true_iff, hgd, if_neg hb]
      rcases Nat.eq_zero_or_pos (slice - quanta) with hR | hR
      · right
        rw [hR, stress_mwc32modn_zero]
        omega
      · left
        exact stress_mwc32modn_lt _ _ hR

/-- Every distribution generates exactly n offsets. -/
theorem stress_workload_gen_offsets_length (dist : DistKind) (slice quanta n : ℕ) (s : ℕ → ℕ) :
    (stress_workload_gen_offsets dist slice quanta n s).length = n := by
  cases dist <;> simp [stress_workload_gen_offsets]

/-- The dispatch loop adds one bogo operation and one histogram sample per
quantum it folds over. -/
theorem stress_workload_exercise_foldl_counts (sample : ℕ → ℚ) (l : List ℕ) :
    ∀ (st : ExerciseState) (k : ℕ), st.bucket.bucket.length = NUM_BUCKETS →
      ((l.foldl (stress_workload_exercise_step sample) (st, k)).1.bogo_ops =
          st.bogo_ops + l.length ∧
        stress_workload_bucket_total
            (l.foldl (stress_workload_exercise_step sample) (st, k)).1.bucket =
          stress_workload_bucket_total st.bucket + l.length) := by
  induction l with
  | nil => intro st k _; simp
  | cons w t ih =>
    intro st k hlen
    simp only [List.foldl_cons, List.length_cons]
    have hstep : stress_workload_exercise_step sample (st, k) w =
        ({ bucket := stress_workload_bucket_account st.bucket (sample k)
           bogo_ops := st.bogo_ops + 1 }, k + 1) := rfl
    rw [hstep]
    have hlen2 : (stress_workload_bucket_account st.bucket (sample k)).bucket.length = NUM_BUCKETS := by
      rw [stress_workload_bucket_account_length]
      exact hlen
    obtain ⟨hops, htot⟩ := ih ⟨stress_workload_bucket_account st.bucket (sample k), st.bogo_ops + 1⟩ (k + 1) hlen2
    rw [hops, htot, stress_workload_bucket_account_total _ _ hlen]
    constructor <;> dsimp <;> omega

/-- C9: one slice execution with quanta_count n signals exactly n bogo
operation increments and records exactly n samples into the offset
histogram — the dispatch loop runs once per sorted quantum, and sorting
preserves the count; for slice_us = 100000 and quanta_us = 1000 the derived
quanta_count is 100, so one slice signals 100 operations and records 100
samples. -/
theorem stress_workload_exercise_ops_samples (st : ExerciseState) (slice quanta n : ℕ) (dist : DistKind)
    (s : ℕ → ℕ) (sample : ℕ → ℚ)
    (hlen : st.bucket.bucket.length = NUM_BUCKETS) :
    (stress_workload_exercise st slice quanta n dist s sample).bogo_ops = st.bogo_ops + n ∧
    stress_workload_bucket_total
        (stress_workload_exercise st slice quanta n dist s sample).bucket =
      stress_workload_bucket_total st.bucket + n ∧
    stress_workload_max_quanta 100000 1000 = 100 := by
  have hlength : (stress_workload_qsort
      (stress_workload_gen_offsets dist slice quanta n s)).length = n := by
    simp [stress_workload_qsort, stress_workload_gen_offsets_length]
  obtain ⟨hops, htot⟩ := stress_workload_exercise_foldl_counts sample
    (stress_workload_qsort (stress_workload_gen_offsets dist slice quanta n s)) st 0 hlen
  refine ⟨?_, ?_, by decide⟩
  · rw [stress_workload_exercise, hops, hlength]
  · rw [stress_workload_exercise, htot, hlength]

/-- C10: under the validated ranges (quanta_us at most slice_us at most
10^7), the uint32 sums of the two (respectively three) draws of Random2
(respectively Random3) stay below 2^32, so the stored offset equals the
exact floored arithmetic mean of the draws with no modular wraparound. -/
theorem stress_workload_mean_no_wraparound (slice quanta n : ℕ) (s : ℕ → ℕ)
    (h2 : quanta ≤ slice) (h3 : slice ≤ 10000000) :
    ((List.range n).all fun i =>
      decide (stress_mwc32modn (slice - quanta) (s (2 * i)) +
            stress_mwc32modn (slice - quanta) (s (2 * i + 1)) < U32 ∧
        (stress_workload_gen_offsets DistKind.random2 slice quanta n s).getD i 0 =
          (stress_mwc32modn (slice - quanta) (s (2 * i)) +
           stress_mwc32modn (slice - quanta) (s (2 * i + 1))) / 2)) = true ∧
    ((List.range n).all fun i =>
      decide (stress_mwc32modn (slice - quanta) (s (3 * i)) +
            stress_mwc32modn (slice - quanta) (s (3 * i + 1)) +
            stress_mwc32modn (slice - quanta) (s (3 * i + 2)) < U32 ∧
        (stress_workload_gen_offsets DistKind.random3 slice quanta n s).getD i 0 =
          (stress_mwc32modn (slice - quanta) (s (3 * i)) +
           stress_mwc32modn (slice - quanta) (s (3 * i + 1)) +
           stress_mwc32modn (slice - quanta) (s (3 * i + 2))) / 3)) = true := by
  have hU : U32 = 4294967296 := rfl
  constructor
  · rw [List.all_eq_true]
    intro i hi
    rw [List.mem_range] at hi
    rw [decide_eq_true_iff]
    have ha := stress_mwc32modn_le (slice - quanta) (s (2 * i))
    have hb := stress_mwc32modn_le (slice - quanta) (s (2 * i + 1))
    have hlt : stress_mwc32modn (slice - quanta) (s (2 * i)) +
        stress_mwc32modn (slice - quanta) (s (2 * i + 1)) < U32 := by omega
    refine ⟨hlt, ?_⟩
    simp only [stress_workload_gen_offsets]
    rw [getD_map_range _ _ _ _ hi, Nat.mod_eq_of_lt hlt]
  · rw [List.all_eq_true]
    intro i hi
    rw [List.mem_range] at hi
    rw [decide_eq_true_iff]
    have ha := stress_mwc32modn_le (slice - quanta) (s (3 * i))
    have hb := stress_mwc32modn_le (slice - quanta) (s (3 * i + 1))
    have hc := stress_mwc32modn_le (slice - quanta) (s (3 * i + 2))
    have hab : stress_mwc32modn (slice - quanta) (s (3 * i)) +
        stress_mwc32modn (slice - quanta) (s (3 * i + 1)) < U32 := by omega
    have habc : stress_mwc32modn (slice - quanta) (s (3 * i)) +
        stress_mwc32modn (slice - quanta) (s (3 * i + 1)) +
        stress_mwc32modn (slice - quanta) (s (3 * i + 2)) < U32 := by omega
    refine ⟨habc, ?_⟩
    simp only [stress_workload_gen_offsets]
    rw [getD_map_range _ _ _ _ hi, Nat.mod_eq_of_lt hab, Nat.mod_eq_of_lt habc]

/-- Witness for C6 amended: slice_us = 30000, quanta_us = 1000, n = 30 and
the stream k + 1. -/
theorem stress_workload_cluster_burst_amended_witness :
    stress_mwc32modn (30000 / 2) ((fun k => k + 1) 0) < 30000 / 2 ∧
    ((List.range 30).all fun i =>
      if i < (30 * 2) / 3 then
        decide (stress_mwc32modn (30000 / 2) ((fun k => k + 1) 0) ≤
            (stress_workload_gen_offsets DistKind.cluster 30000 1000 30 (fun k => k + 1)).getD i 0 ∧
          (stress_workload_gen_offsets DistKind.cluster 30000 1000 30 (fun k => k + 1)).getD i 0 <
            stress_mwc32modn (30000 / 2) ((fun k => k + 1) 0) + 1000)
      else
        decide ((stress_workload_gen_offsets DistKind.cluster 30000 1000 30 (fun k => k + 1)).getD i 0 <
            30000 - 1000 ∨
          (30000 = 1000 ∧
            (stress_workload_gen_offsets DistKind.cluster 30000 1000 30 (fun k => k + 1)).getD i 0 = 0))) = true :=
  stress_workload_cluster_burst_amended 30000 1000 30 (fun k => k + 1)
    (by decide) (by decide) (by decide) (by decide)

/-- Witness for C9: one slice at slice_us = 100000, quanta_us = 1000 with
n = 100 quanta, starting from the initialized histogram and zero
operations, signals 100 operations and records 100 samples. -/
theorem stress_workload_exercise_ops_samples_witness :
    (stress_workload_exercise ⟨stress_workload_bucket_init 100000, 0⟩
        100000 1000 100 DistKind.random1 (fun _ => 0) (fun _ => 0)).bogo_ops = 0 + 100 ∧
    stress_workload_bucket_total
        (stress_workload_exercise ⟨stress_workload_bucket_init 100000, 0⟩
          100000 1000 100 DistKind.random1 (fun _ => 0) (fun _ => 0)).bucket =
      stress_workload_bucket_total (stress_workload_bucket_init 100000) + 100 ∧
    stress_workload_max_quanta 100000 1000 = 100 :=
  stress_workload_exercise_ops_samples ⟨stress_workload_bucket_init 100000, 0⟩
    100000 1000 100 DistKind.random1 (fun _ => 0) (fun _ => 0)
    (by simp [stress_workload_bucket_init])

/-- Witness for C10: slice_us = 100000, quanta_us = 1000, two quanta,
stream 5k + 1. -/
theorem stress_workload_mean_no_wraparound_witness :
    ((List.range 2).all fun i =>
      decide (stress_mwc32modn (100000 - 1000) ((fun k => 5 * k + 1) (2 * i)) +
            stress_mwc32modn (100000 - 1000) ((fun k => 5 * k + 1) (2 * i + 1)) < U32 ∧
        (stress_workload_gen_offsets DistKind.random2 100000 1000 2 (fun k => 5 * k + 1)).getD i 0 =
          (stress_mwc32modn (100000 - 1000) ((fun k => 5 * k + 1) (2 * i)) +
           stress_mwc32modn (100000 - 1000) ((fun k => 5 * k + 1) (2 * i + 1))) / 2)) = true ∧
    ((List.range 2).all fun i =>
      decide (stress_mwc32modn (100000 - 1000) ((fun k => 5 * k + 1) (3 * i)) +
            stress_mwc32modn (100000 - 1000) ((fun k => 5 * k + 1) (3 * i + 1)) +
            stress_mwc32modn (100000 - 1000) ((fun k => 5 * k + 1) (3 * i + 2)) < U32 ∧
        (stress_workload_gen_offsets DistKind.random3 100000 1000 2 (fun k => 5 * k + 1)).getD i 0 =
          (stress_mwc32modn (100000 - 1000) ((fun k => 5 * k + 1) (3 * i)) +
           stress_mwc32modn (100000 - 1000) ((fun k => 5 * k + 1) (3 * i + 1)) +
           stress_mwc32modn (100000 - 1000) ((fun k => 5 * k + 1) (3 * i + 2))) / 3)) = true :=
  stress_workload_mean_no_wraparound 100000 1000 2 (fun k => 5 * k + 1)
    (by decide) (by decide)
